import Mathlib

/-!
Verification of the wavetable synthesis / oscillator / IIR-filter core.

The Python source is embedded shallowly over the real numbers:
floating-point arithmetic is idealized as exact real arithmetic,
numpy buffers become functions or lists over real numbers, and a
fallible builder returns an Except value.

Sections:
1. band-limited table builder (wavetable/wavetable.py, utils.normalize)
2. oscillators (dsp/wavetable/oscillators.py)
3. biquad filter (dsp/filters/biquad.py)
4. first-order time-varying allpass (dsp/filters/allpass.py)

The claim theorems follow the definitions.
-/

open Real

namespace Dsp

/-! ### Table builder: wavetable/wavetable.py

TABLE_SIZE = 4096, SAMPLE_RATE = 44100.0, NYQUIST = 22050.0,
MAX_PARTIALS = 2048.  The time grid is np.linspace(0, 1, 4096), whose
i-th entry is i / 4095 (the right endpoint is included). -/

/-- Partial count computed identically by `_triangle`, `_sawtooth` and
`_square`: `min(int(floor(NYQUIST / fq)), MAX_PARTIALS)`.  The frequency is
taken as a rational so the computation stays exact and executable. -/
def numPartials (fq : ℚ) : ℤ := min ⌊(22050 : ℚ) / fq⌋ 2048

/-- Entry i of `np.linspace(0, 1, num=4096)`, namely i / 4095. -/
noncomputable def tGrid (i : ℕ) : ℝ := (i : ℝ) / 4095

/-- `_sine`: `np.sin(2 * np.pi * t)` on the linspace grid, before `normalize`. -/
noncomputable def sineRaw (i : ℕ) : ℝ := sin (2 * π * tGrid i)

/-- `_triangle` before `normalize`: the loop subtracts, for odd k = j + 1,
`sin(2 pi k t) / (alt * k^2 * pi)` from a zero table, where alt flips sign at
each odd harmonic starting at +1, i.e. alt = (-1)^(j / 2). -/
noncomputable def triangleRaw (fq : ℚ) (i : ℕ) : ℝ :=
  -(∑ j ∈ Finset.range (numPartials fq).toNat,
      if (j + 1) % 2 = 0 then 0
      else sin (2 * π * ((j : ℝ) + 1) * tGrid i) / (((-1 : ℝ) ^ (j / 2)) * ((j : ℝ) + 1) ^ 2 * π))

/-- `_sawtooth` before `normalize`: subtracts `sin(2 pi k t) / (k pi)` for
every harmonic k = 1 .. numPartials. -/
noncomputable def sawtoothRaw (fq : ℚ) (i : ℕ) : ℝ :=
  -(∑ j ∈ Finset.range (numPartials fq).toNat,
      sin (2 * π * ((j : ℝ) + 1) * tGrid i) / (((j : ℝ) + 1) * π))

/-- `_square` before `normalize`: as `_sawtooth` but odd harmonics only. -/
noncomputable def squareRaw (fq : ℚ) (i : ℕ) : ℝ :=
  -(∑ j ∈ Finset.range (numPartials fq).toNat,
      if (j + 1) % 2 = 0 then 0
      else sin (2 * π * ((j : ℝ) + 1) * tGrid i) / (((j : ℝ) + 1) * π))

/-- `np.max(np.abs(arr), axis=0)` over the 4096 table entries. -/
noncomputable def maxAbs (f : ℕ → ℝ) : ℝ :=
  (Finset.range 4096).sup' (Finset.nonempty_range_iff.mpr (by norm_num)) fun i => |f i|

/-- `utils.normalize`: divide every entry by the maximum absolute entry. -/
noncomputable def normalize (f : ℕ → ℝ) : ℕ → ℝ := fun i => f i / maxAbs f

/-- The pre-normalization table selected by wave type (0 = sine,
1 = triangle, 2 = sawtooth, 3 = square, matching the WaveType constants). -/
noncomputable def rawTable (w : ℤ) (fq : ℚ) : ℕ → ℝ :=
  if w = 0 then sineRaw
  else if w = 1 then triangleRaw fq
  else if w = 2 then sawtoothRaw fq
  else if w = 3 then squareRaw fq
  else fun _ => 0

/-- Failure conditions of `build`: the explicit raise for an unrecognized
wave type, and Python's ZeroDivisionError from `NYQUIST / fq` at fq = 0 in
the triangle / sawtooth / square builders. -/
inductive BuildError where
  | invalidArgument
  | zeroDivision
  deriving DecidableEq

/-- `wavetable.build(wavetype, fq)`: dispatch on the WaveType constants in
source order; each periodic builder divides NYQUIST by fq, so fq = 0 raises
a division error there; an unrecognized type raises (no fallback table). -/
noncomputable def build (w : ℤ) (fq : ℚ) : Except BuildError (ℕ → ℝ) :=
  if w = 0 then .ok (normalize sineRaw)
  else if w = 1 then (if fq = 0 then .error .zeroDivision else .ok (normalize (triangleRaw fq)))
  else if w = 2 then (if fq = 0 then .error .zeroDivision else .ok (normalize (sawtoothRaw fq)))
  else if w = 3 then (if fq = 0 then .error .zeroDivision else .ok (normalize (squareRaw fq)))
  else .error .invalidArgument

/-- The normalized sine table produced by `build(SINE, _)`. -/
noncomputable def sineTable : ℕ → ℝ := normalize sineRaw

/-! ### Oscillators: dsp/wavetable/oscillators.py

All three oscillators are stateless across output samples (each sample is
recomputed from the output index), so a render is modelled as a function
from the initial buffer to the final buffer, with `buf[i] += sample`
accumulation. -/

/-- Table-read wrap: `read_index & (TABLE_SIZE - 1)` with TABLE_SIZE = 4096.
On arbitrary-precision Python ints, anding with 4095 is reduction mod 4096. -/
def maskIdx (z : ℤ) : ℕ := (z % 4096).toNat

/-- A numpy integer index into a buffer of length n: negative indices wrap
from the end of the buffer. -/
def npIndex (n : ℕ) (z : ℤ) : ℕ := if z < 0 then (z + n).toNat else z.toNat

/-- Masked linear interpolation into the 4096-entry table at real position
pos: floor to get the left index, wrap both neighbours, blend with the
fractional part, exactly as in `StandardOscillator.render`. -/
noncomputable def lerpTable (table : ℕ → ℝ) (pos : ℝ) : ℝ :=
  (1 - (pos - (⌊pos⌋ : ℝ))) * table (maskIdx ⌊pos⌋) +
    (pos - (⌊pos⌋ : ℝ)) * table (maskIdx (⌊pos⌋ + 1))

/-- Sample i of `StandardOscillator.render`: interpolated table read at
position i * incr, before the level scaling. -/
noncomputable def stdSample (table : ℕ → ℝ) (incr : ℝ) (i : ℕ) : ℝ :=
  lerpTable table ((i : ℝ) * incr)

/-- `StandardOscillator.render` into a buffer of size n:
`buf[i] += sample * level` for every i < n. -/
noncomputable def stdRender (table : ℕ → ℝ) (incr level : ℝ) (buf : ℕ → ℝ) (n : ℕ) : ℕ → ℝ :=
  fun i => if i < n then buf i + stdSample table incr i * level else buf i

/-- `StandardOscillator.__init__`: phase increment including detune,
`freq * 2^(detune/1200) / 44100 * TABLE_SIZE`. -/
noncomputable def oscIncr (freq detune : ℝ) : ℝ :=
  freq * (2 : ℝ) ^ (detune / 1200) / 44100 * 4096

/-- Undetuned increment used by both resampling oscillators:
`freq / 44100 * TABLE_SIZE`. -/
noncomputable def resIncr (freq : ℝ) : ℝ := freq / 44100 * 4096

/-- `pow(2, detune / 1200.0)`, the playback rate of the resampling stage. -/
noncomputable def playbackRate (detune : ℝ) : ℝ := (2 : ℝ) ^ (detune / 1200)

/-- Output index i is written by `ResamplingOscillator.render` into a buffer
of size n at playback rate r: the loop has not broken at or before i, i.e.
no j <= i has an interpolation endpoint `floor(j * r) + 1` at or past n. -/
def resWrites (r : ℝ) (n i : ℕ) : Prop :=
  i < n ∧ ∀ j ≤ i, ⌊(j : ℝ) * r⌋ + 1 < (n : ℤ)

noncomputable instance resWritesDecidable (r : ℝ) (n i : ℕ) : Decidable (resWrites r n i) := by
  unfold resWrites
  infer_instance

/-- `ResamplingOscillator.render`: first render an undetuned, level-scaled
intermediate buffer with the standard algorithm, then read it back with
linear interpolation at rate r, stopping at the first output index whose
read would leave the intermediate buffer; written samples accumulate
without further level scaling. -/
noncomputable def resRender (table : ℕ → ℝ) (incr level r : ℝ) (buf : ℕ → ℝ) (n : ℕ) :
    ℕ → ℝ :=
  fun i =>
    if resWrites r n i then
      buf i +
        ((1 - ((i : ℝ) * r - (⌊(i : ℝ) * r⌋ : ℝ))) *
            stdRender table incr level (fun _ => 0) n (npIndex n ⌊(i : ℝ) * r⌋) +
          ((i : ℝ) * r - (⌊(i : ℝ) * r⌋ : ℝ)) *
            stdRender table incr level (fun _ => 0) n (npIndex n (⌊(i : ℝ) * r⌋ + 1)))
    else buf i

/-- Sample i of `RealTimeResamplingOscillator.render` before level scaling:
the nested interpolation that recomputes the two virtual intermediate
samples E[x], E[x + 1] at x = floor(i * r) directly from the table. -/
noncomputable def rtSample (table : ℕ → ℝ) (incr r : ℝ) (i : ℕ) : ℝ :=
  (1 - ((i : ℝ) * r - (⌊(i : ℝ) * r⌋ : ℝ))) * lerpTable table (incr * (⌊(i : ℝ) * r⌋ : ℝ)) +
    ((i : ℝ) * r - (⌊(i : ℝ) * r⌋ : ℝ)) * lerpTable table (incr * ((⌊(i : ℝ) * r⌋ : ℝ) + 1))

/-- `RealTimeResamplingOscillator.render`: `buf[i] += si * level` for i < n. -/
noncomputable def rtRender (table : ℕ → ℝ) (incr r level : ℝ) (buf : ℕ → ℝ) (n : ℕ) : ℕ → ℝ :=
  fun i => if i < n then buf i + rtSample table incr r i * level else buf i

/-- The two masked indices a table interpolation at position pos reads. -/
noncomputable def lerpAccesses (pos : ℝ) : List ℕ :=
  [maskIdx ⌊pos⌋, maskIdx (⌊pos⌋ + 1)]

/-- The masked table indices read when computing `stdSample` at index i. -/
noncomputable def stdAccesses (incr : ℝ) (i : ℕ) : List ℕ :=
  lerpAccesses ((i : ℝ) * incr)

/-- The masked table indices read when computing `rtSample` at index i. -/
noncomputable def rtAccesses (incr r : ℝ) (i : ℕ) : List ℕ :=
  lerpAccesses (incr * (⌊(i : ℝ) * r⌋ : ℝ)) ++
    lerpAccesses (incr * ((⌊(i : ℝ) * r⌋ : ℝ) + 1))

/-! ### Biquad filter: dsp/filters/biquad.py -/

/-- Biquad coefficient set. -/
structure Coeffs where
  b0 : ℝ
  b1 : ℝ
  b2 : ℝ
  a0 : ℝ
  a1 : ℝ
  a2 : ℝ

/-- One step of the loop body in `BiquadFilter.process_block`. -/
noncomputable def biquadStep (c : Coeffs) (x2 x1 x0 y2 y1 : ℝ) : ℝ :=
  c.b0 / c.a0 * x0 + c.b1 / c.a0 * x1 + c.b2 / c.a0 * x2 -
    c.a1 / c.a0 * y1 - c.a2 / c.a0 * y2

/-- The biquad recurrence over a list of inputs, threading the last two
inputs and outputs; this is the full per-sample recurrence of the spec. -/
noncomputable def biquadRun (c : Coeffs) : ℝ → ℝ → ℝ → ℝ → List ℝ → List ℝ
  | _, _, _, _, [] => []
  | x2, x1, y2, y1, x0 :: xs =>
    biquadStep c x2 x1 x0 y2 y1 :: biquadRun c x1 x0 y1 (biquadStep c x2 x1 x0 y2 y1) xs

/-- Filter state: coefficients plus the stored 2-sample input and output
history (hx2 and hy2 are the older samples). -/
structure BiquadState where
  co : Coeffs
  hx2 : ℝ
  hx1 : ℝ
  hy2 : ℝ
  hy1 : ℝ

/-- `BiquadFilter.process_block` as written (faithful for blocks of length
at least 2): the loop `for i in range(2, _len)` over the padded buffers
computes the recurrence only for the first `_len - 2` input samples, the
last two output slots keep the caller's prior contents, and the stored
history takes the last two inputs and the last two (stale) output slots. -/
noncomputable def processBlock (s : BiquadState) (input output : List ℝ) :
    List ℝ × BiquadState :=
  let n := input.length
  let computed := biquadRun s.co s.hx2 s.hx1 s.hy2 s.hy1 (input.take (n - 2))
  let out := computed ++ output.drop (n - 2)
  (out,
    { co := s.co
      hx2 := (input.drop (n - 2)).headI
      hx1 := (input.drop (n - 1)).headI
      hy2 := (out.drop (n - 2)).headI
      hy1 := (out.drop (n - 1)).headI })

/-! ### First-order time-varying allpass: dsp/filters/allpass.py

mMax = 0.82, mMin = -0.05. -/

/-- `self._offset = offset * (mMax - mMin)`. -/
noncomputable def apOffset (offset : ℝ) : ℝ := offset * (0.82 - (-0.05))

/-- `self._amp = min(amplitude, mMax - self._offset)`: the construction-time
clamp of the modulation amplitude. -/
noncomputable def apAmp (offset amplitude : ℝ) : ℝ := min amplitude (0.82 - apOffset offset)

/-- `AllpassFilter.update(t)`: the shared coefficient b0 = a1 assigned at
loop step t of `process_block`,
`mMin + offset + amp * sin(2 pi rate t / 44100)`. -/
noncomputable def apUpdate (offset amplitude rate : ℝ) (t : ℕ) : ℝ :=
  -0.05 + apOffset offset + apAmp offset amplitude * sin (2 * π * rate * (t : ℝ) / 44100)

/-- The sequence of coefficient values assigned during one `process_block`
call on a length-n input: `update(i)` for i in `range(2, n)`. -/
noncomputable def apBlockCoeffs (offset amplitude rate : ℝ) (n : ℕ) : List ℝ :=
  (List.range' 2 (n - 2)).map (apUpdate offset amplitude rate)

/-- Claim C5: for the Triangle, Sawtooth and Square builders the number of
partials summed is min(floor((sampleRate/2)/f), tableSize/2); in particular at
f = 43.65 Hz the builders sum exactly 505 partials. -/
theorem claim_C5 :
    (∀ fq : ℚ, numPartials fq = min ⌊((44100 : ℚ) / 2) / fq⌋ ((4096 : ℤ) / 2)) ∧
    numPartials (4365 / 100) = 505 ∧ (numPartials (4365 / 100)).toNat = 505 := by
  have hfloor : ⌊(22050 : ℚ) / (4365 / 100)⌋ = 505 := by
    rw [Int.floor_eq_iff]
    constructor <;> norm_num
  refine ⟨fun fq => by norm_num [numPartials], ?_, ?_⟩
  · rw [numPartials, hfloor]
    norm_num
  · rw [numPartials, hfloor]
    rfl

/-- Claim C8 counterexample: build(TRIANGLE, 0) is a recognized wave type yet
fails (with a division-by-zero error, not InvalidArgument) and returns no
table, refuting the part of the claim stating that the four recognized types
never fail. -/
theorem claim_C8_counterexample :
    build 1 0 = .error .zeroDivision ∧ ∀ t, build 1 0 ≠ .ok t := by
  constructor
  · norm_num [build]
  · intro t h
    norm_num [build] at h
    exact Except.noConfusion h

/-- Claim C8 as amended: an unrecognized wave type fails with InvalidArgument
and no table is substituted; the four recognized types never fail with
InvalidArgument, and succeed except that Triangle / Sawtooth / Square fail
with a division-by-zero error exactly when the frequency is 0. -/
theorem claim_C8_amended : ∀ (w : ℤ) (fq : ℚ),
    (¬(w = 0 ∨ w = 1 ∨ w = 2 ∨ w = 3) → build w fq = .error .invalidArgument) ∧
    (w = 0 → build w fq = .ok (normalize sineRaw)) ∧
    ((w = 1 ∨ w = 2 ∨ w = 3) → fq ≠ 0 → ∃ t, build w fq = .ok t) ∧
    ((w = 1 ∨ w = 2 ∨ w = 3) → fq = 0 → build w fq = .error .zeroDivision) := by
  intro w fq
  refine ⟨?_, ?_, ?_, ?_⟩
  · intro h
    push_neg at h
    rw [build, if_neg h.1, if_neg h.2.1, if_neg h.2.2.1, if_neg h.2.2.2]
  · intro h
    subst h
    rw [build, if_pos rfl]
  · rintro (rfl | rfl | rfl) hq
    · exact ⟨_, by rw [build, if_neg (by norm_num), if_pos rfl, if_neg hq]⟩
    · exact ⟨_, by rw [build, if_neg (by norm_num), if_neg (by norm_num), if_pos rfl, if_neg hq]⟩
    · exact ⟨_, by rw [build, if_neg (by norm_num), if_neg (by norm_num), if_neg (by norm_num),
        if_pos rfl, if_neg hq]⟩
  · rintro (rfl | rfl | rfl) hq
    · rw [build, if_neg (by norm_num), if_pos rfl, if_pos hq]
    · rw [build, if_neg (by norm_num), if_neg (by norm_num), if_pos rfl, if_pos hq]
    · rw [build, if_neg (by norm_num), if_neg (by norm_num), if_neg (by norm_num),
        if_pos rfl, if_pos hq]

/-- Witness for the amended C8 at concrete inputs: wave type 7 is rejected
with InvalidArgument, sine and sawtooth at nonzero frequency succeed, and
square at frequency 0 hits the division error. -/
theorem claim_C8_witness :
    build 7 1 = .error .invalidArgument ∧ build 0 5 = .ok (normalize sineRaw) ∧
    (∃ t, build 2 1 = .ok t) ∧ build 3 0 = .error .zeroDivision :=
  ⟨(claim_C8_amended 7 1).1 (by norm_num),
   (claim_C8_amended 0 5).2.1 rfl,
   (claim_C8_amended 2 1).2.2.1 (Or.inr (Or.inl rfl)) (by norm_num),
   (claim_C8_amended 3 0).2.2.2 (Or.inr (Or.inr rfl)) rfl⟩

/-- Normalizing a table that has a nonzero entry makes its maximum absolute
entry exactly 1. -/
theorem maxAbs_normalize_eq_one {f : ℕ → ℝ} (h : ∃ i ∈ Finset.range 4096, f i ≠ 0) :
    maxAbs (normalize f) = 1 := by
  obtain ⟨i0, hi0, hne⟩ := h
  have hM : 0 < maxAbs f :=
    lt_of_lt_of_le (abs_pos.mpr hne) (Finset.le_sup' (fun i => |f i|) hi0)
  have habs : ∀ i, |normalize f i| = |f i| / maxAbs f := by
    intro i
    simp only [normalize]
    rw [abs_div, abs_of_pos hM]
  apply le_antisymm
  · apply Finset.sup'_le
    intro i hi
    rw [habs]
    exact div_le_one_of_le₀ (Finset.le_sup' (fun j => |f j|) hi) hM.le
  · obtain ⟨i1, hi1, hmax⟩ :=
      Finset.exists_mem_eq_sup'
        (Finset.nonempty_range_iff.mpr (show (4096 : ℕ) ≠ 0 by norm_num)) (fun i => |f i|)
    have hM1 : maxAbs f = |f i1| := hmax
    have h1 : |normalize f i1| = 1 := by
      rw [habs, hM1]
      exact div_self (hM1 ▸ hM.ne')
    calc (1 : ℝ) = |normalize f i1| := h1.symm
      _ ≤ _ := Finset.le_sup' (fun i => |normalize f i|) hi1

/-- Entry 1024 of the raw sine table is cos (pi / 8190). -/
theorem sineRaw_1024 : sineRaw 1024 = cos (π / 8190) := by
  have h : 2 * π * ((1024 : ℝ) / 4095) = π / 2 + π / 8190 := by
    field_simp
    ring
  rw [sineRaw, tGrid]
  push_cast
  rw [h, sin_add, sin_pi_div_two, cos_pi_div_two]
  ring

/-- Numeric bound: cos (pi / 8190) is at least 9 / 10. -/
theorem cos_small_angle_bound : (9 : ℝ) / 10 ≤ cos (π / 8190) := by
  have h1 : π / 8190 ≤ 4 / 8190 := by nlinarith [pi_le_four]
  have h0 : (0 : ℝ) ≤ π / 8190 := by positivity
  have h2 := one_sub_sq_div_two_le_cos (x := π / 8190)
  nlinarith

/-- The raw sine table has maximum absolute entry at most 1. -/
theorem maxAbs_sineRaw_le_one : maxAbs sineRaw ≤ 1 := by
  apply Finset.sup'_le
  intro i _
  rw [sineRaw]
  exact abs_le.mpr ⟨neg_one_le_sin _, sin_le_one _⟩

/-- The raw sine table has maximum absolute entry at least cos (pi / 8190). -/
theorem cos_le_maxAbs_sineRaw : cos (π / 8190) ≤ maxAbs sineRaw := by
  have h := Finset.le_sup' (fun i => |sineRaw i|)
    (show 1024 ∈ Finset.range 4096 by norm_num)
  calc cos (π / 8190) ≤ |sineRaw 1024| := by
        rw [sineRaw_1024]
        exact le_abs_self _
    _ ≤ _ := h

/-- The raw sine table's maximum absolute entry is positive. -/
theorem maxAbs_sineRaw_pos : 0 < maxAbs sineRaw :=
  lt_of_lt_of_le (lt_of_lt_of_le (by norm_num) cos_small_angle_bound) cos_le_maxAbs_sineRaw

set_option maxRecDepth 4000 in
/-- Claim C6: whenever build returns a table whose pre-normalization
synthesis is not identically zero on the 4096 entries, the returned table's
maximum absolute sample is exactly 1. -/
theorem claim_C6 : ∀ (w : ℤ) (fq : ℚ) (t : ℕ → ℝ), build w fq = .ok t →
    (∃ i ∈ Finset.range 4096, rawTable w fq i ≠ 0) → maxAbs t = 1 := by
  intro w fq t hok hnz
  by_cases h0 : w = 0
  · subst h0
    rw [build, if_pos rfl] at hok
    rw [rawTable, if_pos rfl] at hnz
    have h := Except.ok.inj hok
    subst h
    exact maxAbs_normalize_eq_one hnz
  · by_cases h1 : w = 1
    · subst h1
      rw [build, if_neg (by norm_num), if_pos rfl] at hok
      rw [rawTable, if_neg (by norm_num), if_pos rfl] at hnz
      by_cases hq : fq = 0
      · rw [if_pos hq] at hok
        exact Except.noConfusion hok
      · rw [if_neg hq] at hok
        have h := Except.ok.inj hok
        subst h
        exact maxAbs_normalize_eq_one hnz
    · by_cases h2 : w = 2
      · subst h2
        rw [build, if_neg (by norm_num), if_neg (by norm_num), if_pos rfl] at hok
        rw [rawTable, if_neg (by norm_num), if_neg (by norm_num), if_pos rfl] at hnz
        by_cases hq : fq = 0
        · rw [if_pos hq] at hok
          exact Except.noConfusion hok
        · rw [if_neg hq] at hok
          have h := Except.ok.inj hok
          subst h
          exact maxAbs_normalize_eq_one hnz
      · by_cases h3 : w = 3
        · subst h3
          rw [build, if_neg (by norm_num), if_neg (by norm_num), if_neg (by norm_num),
            if_pos rfl] at hok
          rw [rawTable, if_neg (by norm_num), if_neg (by norm_num), if_neg (by norm_num),
            if_pos rfl] at hnz
          by_cases hq : fq = 0
          · rw [if_pos hq] at hok
            exact Except.noConfusion hok
          · rw [if_neg hq] at hok
            have h := Except.ok.inj hok
            subst h
            exact maxAbs_normalize_eq_one hnz
        · rw [build, if_neg h0, if_neg h1, if_neg h2, if_neg h3] at hok
          exact Except.noConfusion hok

/-- Witness for C6 at the sine table: the built sine table attains maximum
absolute sample exactly 1 (entry 1024 of the raw table is nonzero). -/
theorem claim_C6_witness : maxAbs (normalize sineRaw) = 1 := by
  apply claim_C6 0 440 (normalize sineRaw)
  · rw [build, if_pos rfl]
  · refine ⟨1024, by norm_num, ?_⟩
    rw [rawTable, if_pos rfl, sineRaw_1024]
    intro hzero
    have h := cos_small_angle_bound
    rw [hzero] at h
    norm_num at h

/-- The sine function moves by at most the distance between its arguments. -/
theorem sin_diff_le (a b : ℝ) : |sin a - sin b| ≤ |a - b| := by
  rw [sin_sub_sin, abs_mul, abs_mul]
  have h1 : |sin ((a - b) / 2)| ≤ |(a - b) / 2| := abs_sin_le_abs
  have h2 : |cos ((a + b) / 2)| ≤ 1 := abs_cos_le_one _
  have h3 : |(a - b) / 2| = |a - b| / 2 := by
    rw [abs_div]
    norm_num
  have hfin : |2| * |(a - b) / 2| * 1 = |a - b| := by
    rw [h3, abs_two]
    ring
  calc |2| * |sin ((a - b) / 2)| * |cos ((a + b) / 2)|
      ≤ |2| * |(a - b) / 2| * 1 :=
        mul_le_mul (mul_le_mul_of_nonneg_left h1 (abs_nonneg _)) h2 (abs_nonneg _)
          (by positivity)
    _ = |a - b| := hfin

/-- Shifting the raw sine table by half the table size lands a half cycle
plus the linspace endpoint defect pi / 4095 away. -/
theorem sineRaw_shift (j : ℕ) :
    sineRaw (j + 2048) = -sin (2 * π * ((j : ℝ) / 4095) + π / 4095) := by
  have hcast : ((j + 2048 : ℕ) : ℝ) = (j : ℝ) + 2048 := by push_cast; ring
  have h : 2 * π * (((j : ℝ) + 2048) / 4095) = 2 * π * ((j : ℝ) / 4095) + π / 4095 + π := by
    field_simp
    ring
  rw [sineRaw, tGrid, hcast, h, sin_add_pi]

/-- The raw sine table's half-cycle antisymmetry defect is at most pi / 4095. -/
theorem sineRaw_pair_bound (j : ℕ) :
    |sineRaw j + sineRaw (j + 2048)| ≤ π / 4095 := by
  rw [sineRaw_shift, sineRaw, tGrid]
  have hrw : sin (2 * π * ((j : ℝ) / 4095)) + -sin (2 * π * ((j : ℝ) / 4095) + π / 4095) =
      sin (2 * π * ((j : ℝ) / 4095)) - sin (2 * π * ((j : ℝ) / 4095) + π / 4095) := by
    ring
  rw [hrw]
  refine le_trans (sin_diff_le _ _) ?_
  have harg : 2 * π * ((j : ℝ) / 4095) - (2 * π * ((j : ℝ) / 4095) + π / 4095) = -(π / 4095) := by
    ring
  rw [harg, abs_neg, abs_of_nonneg (by positivity)]

set_option maxRecDepth 4000 in
/-- Claim C7 as amended: the sine table samples sin(2 pi t) on the closed
grid t = i / 4095 (endpoint included, from np.linspace), so the half-cycle
antisymmetry holds only approximately: the defect
|table[i] + table[(i + 2048) mod 4096]| is bounded by 1 / 1000 for every
index, but it is not within floating-point tolerance (see counterexample). -/
theorem claim_C7_amended : ∀ i : ℕ, i < 4096 →
    sineTable i = sin (2 * π * ((i : ℝ) / 4095)) / maxAbs sineRaw ∧
    |sineTable i + sineTable ((i + 2048) % 4096)| ≤ 1 / 1000 := by
  intro i hi
  have hM9 : (9 : ℝ) / 10 ≤ maxAbs sineRaw := le_trans cos_small_angle_bound cos_le_maxAbs_sineRaw
  have hMpos : 0 < maxAbs sineRaw := lt_of_lt_of_le (by norm_num) hM9
  have habs : ∀ a b : ℕ, |sineTable a + sineTable b| = |sineRaw a + sineRaw b| / maxAbs sineRaw := by
    intro a b
    simp only [sineTable, normalize]
    rw [div_add_div_same, abs_div, abs_of_pos hMpos]
  have hbound : ∀ a b : ℕ, |sineRaw a + sineRaw b| ≤ π / 4095 →
      |sineTable a + sineTable b| ≤ 1 / 1000 := by
    intro a b h
    rw [habs]
    have hstep : |sineRaw a + sineRaw b| / maxAbs sineRaw ≤ (π / 4095) / (9 / 10) :=
      div_le_div₀ (by positivity) h (by norm_num) hM9
    refine le_trans hstep ?_
    have hring : (π / 4095) / ((9 : ℝ) / 10) = π * (10 / 36855) := by ring
    rw [hring]
    nlinarith [pi_lt_d2]
  constructor
  · rfl
  · rcases lt_or_ge i 2048 with hlt | hge
    · have hmod : (i + 2048) % 4096 = i + 2048 := Nat.mod_eq_of_lt (by omega)
      rw [hmod]
      exact hbound i (i + 2048) (sineRaw_pair_bound i)
    · obtain ⟨j, rfl⟩ : ∃ j, i = j + 2048 := ⟨i - 2048, by omega⟩
      have hmod : (j + 2048 + 2048) % 4096 = j := by omega
      rw [hmod]
      have hcomm : |sineTable (j + 2048) + sineTable j| =
          |sineTable j + sineTable (j + 2048)| := by
        rw [add_comm]
      rw [hcomm]
      exact hbound j (j + 2048) (sineRaw_pair_bound j)

/-- Witness for the amended C7 at index 0. -/
theorem claim_C7_witness : |sineTable 0 + sineTable ((0 + 2048) % 4096)| ≤ 1 / 1000 :=
  (claim_C7_amended 0 (by norm_num)).2

/-- Claim C7 counterexample: at index 0 the half-cycle antisymmetry defect
of the sine table exceeds 1e-6 (it is about 7.7e-4), so the table is not
sin(2 pi t) on [0, 1) with the claimed antisymmetry within floating-point
tolerance. -/
theorem claim_C7_counterexample :
    1e-6 < |sineTable 0 + sineTable ((0 + 2048) % 4096)| := by
  have hMle1 : maxAbs sineRaw ≤ 1 := maxAbs_sineRaw_le_one
  have hM9 : (9 : ℝ) / 10 ≤ maxAbs sineRaw := le_trans cos_small_angle_bound cos_le_maxAbs_sineRaw
  have hMpos : 0 < maxAbs sineRaw := lt_of_lt_of_le (by norm_num) hM9
  have h0 : sineTable 0 = 0 := by
    have hz : sineRaw 0 = 0 := by
      rw [sineRaw, tGrid]
      norm_num
    have : sineTable 0 = sineRaw 0 / maxAbs sineRaw := rfl
    rw [this, hz, zero_div]
  have h2048 : sineRaw 2048 = -sin (π / 4095) := by
    have h := sineRaw_shift 0
    norm_num at h
    exact h
  have hx1 : (0 : ℝ) < π / 4095 := by positivity
  have hx2 : π / 4095 ≤ 1 := by nlinarith [pi_le_four]
  have hgt := sin_gt_sub_cube hx1 hx2
  have hxu : π / 4095 < 8 / 10000 := by nlinarith [pi_lt_d2]
  have hxl : (7 : ℝ) / 10000 < π / 4095 := by nlinarith [pi_gt_three]
  have hsq : (π / 4095) ^ 2 < ((8 : ℝ) / 10000) ^ 2 := by nlinarith
  have hcu : (π / 4095) ^ 3 < ((8 : ℝ) / 10000) ^ 3 := by nlinarith
  have hc : ((8 : ℝ) / 10000) ^ 3 = 512 / 1000000000000 := by norm_num
  have hlow : (1 : ℝ) / 2000 < sin (π / 4095) := by
    rw [hc] at hcu
    linarith
  have hsinpos : 0 < sin (π / 4095) := lt_trans (by norm_num) hlow
  have habs : |sineTable ((0 + 2048) % 4096)| = sin (π / 4095) / maxAbs sineRaw := by
    have hmod : (0 + 2048) % 4096 = 2048 := by norm_num
    rw [hmod]
    have hdef : sineTable 2048 = sineRaw 2048 / maxAbs sineRaw := rfl
    rw [hdef, h2048, abs_div, abs_neg, abs_of_pos hsinpos, abs_of_pos hMpos]
  have hdivge : sin (π / 4095) ≤ sin (π / 4095) / maxAbs sineRaw := by
    rw [le_div_iff₀ hMpos]
    nlinarith
  calc (1e-6 : ℝ) < 1 / 2000 := by norm_num
    _ < sin (π / 4095) := hlow
    _ ≤ sin (π / 4095) / maxAbs sineRaw := hdivge
    _ = |sineTable ((0 + 2048) % 4096)| := habs.symm
    _ = |sineTable 0 + sineTable ((0 + 2048) % 4096)| := by
      rw [h0]
      norm_num

/-- A standard render at level 0 leaves the buffer unchanged. -/
theorem stdRender_level_zero (table : ℕ → ℝ) (incr : ℝ) (buf : ℕ → ℝ) (n i : ℕ) :
    stdRender table incr 0 buf n i = buf i := by
  simp only [stdRender]
  split
  · rw [mul_zero, add_zero]
  · rfl

/-- On every index the offline resampling render writes, it agrees exactly
with the real-time resampling render: the virtual intermediate samples the
real-time oscillator recomputes are the very samples the offline oscillator
stored, and the level factor distributes over the outer interpolation. -/
theorem res_eq_rt (table : ℕ → ℝ) (incr level r : ℝ) (hr : 0 ≤ r) (buf : ℕ → ℝ) (n i : ℕ)
    (h : resWrites r n i) :
    resRender table incr level r buf n i = rtRender table incr r level buf n i := by
  obtain ⟨hin, hall⟩ := h
  have hx1 : ⌊(i : ℝ) * r⌋ + 1 < (n : ℤ) := hall i le_rfl
  have hp : (0 : ℝ) ≤ (i : ℝ) * r := mul_nonneg (Nat.cast_nonneg i) hr
  have hx0 : 0 ≤ ⌊(i : ℝ) * r⌋ := Int.floor_nonneg.mpr hp
  simp only [resRender, rtRender, rtSample]
  rw [if_pos ⟨hin, hall⟩, if_pos hin]
  have hnp1 : npIndex n ⌊(i : ℝ) * r⌋ = (⌊(i : ℝ) * r⌋).toNat := by
    rw [npIndex, if_neg (by omega)]
  have hnp2 : npIndex n (⌊(i : ℝ) * r⌋ + 1) = (⌊(i : ℝ) * r⌋ + 1).toNat := by
    rw [npIndex, if_neg (by omega)]
  have hlt1 : (⌊(i : ℝ) * r⌋).toNat < n := by omega
  have hlt2 : (⌊(i : ℝ) * r⌋ + 1).toNat < n := by omega
  rw [hnp1, hnp2]
  simp only [stdRender, stdSample]
  rw [if_pos hlt1, if_pos hlt2]
  have hcast1 : (((⌊(i : ℝ) * r⌋).toNat : ℕ) : ℝ) = ((⌊(i : ℝ) * r⌋ : ℤ) : ℝ) := by
    exact_mod_cast Int.toNat_of_nonneg hx0
  have hcast2 : (((⌊(i : ℝ) * r⌋ + 1).toNat : ℕ) : ℝ) = ((⌊(i : ℝ) * r⌋ : ℤ) : ℝ) + 1 := by
    have h01 : (0 : ℤ) ≤ ⌊(i : ℝ) * r⌋ + 1 := by omega
    have h02 := Int.toNat_of_nonneg h01
    exact_mod_cast h02
  rw [hcast1, hcast2]
  rw [mul_comm ((⌊(i : ℝ) * r⌋ : ℤ) : ℝ) incr, mul_comm (((⌊(i : ℝ) * r⌋ : ℤ) : ℝ) + 1) incr]
  ring

/-- Claim C1: with the shared construction parameters (43.65 Hz, detune
3.0 cents, a common level and the same built table) over a 4-second buffer
at 44100 Hz, the offline two-stage resampling render and the real-time
resampling render agree within 1e-9 at every index the offline variant
writes before its early termination; in this exact-arithmetic embedding
they are equal outright. -/
theorem claim_C1 (table : ℕ → ℝ) (level : ℝ) (buf : ℕ → ℝ) (i : ℕ)
    (h : resWrites (playbackRate 3) 176400 i) :
    |resRender table (resIncr 43.65) level (playbackRate 3) buf 176400 i -
      rtRender table (resIncr 43.65) (playbackRate 3) level buf 176400 i| ≤ 1e-9 := by
  have hr : 0 ≤ playbackRate 3 := le_of_lt (rpow_pos_of_pos (by norm_num) _)
  rw [res_eq_rt table (resIncr 43.65) level (playbackRate 3) hr buf 176400 i h, sub_self,
    abs_zero]
  norm_num

/-- Witness for C1 at output index 0 with a zero table, unit level and a
zero initial buffer. -/
theorem claim_C1_witness :
    |resRender (fun _ => 0) (resIncr 43.65) 1 (playbackRate 3) (fun _ => 0) 176400 0 -
      rtRender (fun _ => 0) (resIncr 43.65) (playbackRate 3) 1 (fun _ => 0) 176400 0| ≤ 1e-9 := by
  apply claim_C1
  constructor
  · norm_num
  · intro j hj
    have hj0 : j = 0 := Nat.le_zero.mp hj
    subst hj0
    have hz : ((0 : ℕ) : ℝ) * playbackRate 3 = 0 := by norm_num
    rw [hz, Int.floor_zero]
    norm_num

/-- Claim C9: at level 0 each of the three oscillator renders leaves every
element of the accumulation buffer unchanged. -/
theorem claim_C9 : ∀ (table : ℕ → ℝ) (incr r : ℝ) (buf : ℕ → ℝ) (n i : ℕ),
    stdRender table incr 0 buf n i = buf i ∧
    rtRender table incr r 0 buf n i = buf i ∧
    resRender table incr 0 r buf n i = buf i := by
  intro table incr r buf n i
  refine ⟨stdRender_level_zero table incr buf n i, ?_, ?_⟩
  · simp only [rtRender]
    split
    · rw [mul_zero, add_zero]
    · rfl
  · simp only [resRender]
    split
    · rw [stdRender_level_zero, stdRender_level_zero]
      simp
    · rfl

/-- Every masked table index is inside the 4096-entry table. -/
theorem maskIdx_lt (z : ℤ) : maskIdx z < 4096 := by
  rw [maskIdx]
  have h1 : 0 ≤ z % 4096 := Int.emod_nonneg z (by norm_num)
  have h2 : z % 4096 < 4096 := Int.emod_lt_of_pos z (by norm_num)
  omega

/-- A table interpolation only depends on the table at its two masked
access indices. -/
theorem lerpTable_congr (t₁ t₂ : ℕ → ℝ) (pos : ℝ)
    (h : ∀ k ∈ lerpAccesses pos, t₁ k = t₂ k) :
    lerpTable t₁ pos = lerpTable t₂ pos := by
  have h1 : t₁ (maskIdx ⌊pos⌋) = t₂ (maskIdx ⌊pos⌋) := h _ (by simp [lerpAccesses])
  have h2 : t₁ (maskIdx (⌊pos⌋ + 1)) = t₂ (maskIdx (⌊pos⌋ + 1)) := h _ (by simp [lerpAccesses])
  rw [lerpTable, lerpTable, h1, h2]

/-- Claim C10: every table read of the standard and real-time resampling
sample computations goes through the bitmask, lands inside [0, 4096), and
the computed samples depend on the table only at those masked indices. -/
theorem claim_C10 :
    (∀ (incr : ℝ) (i : ℕ), ∀ k ∈ stdAccesses incr i, k < 4096) ∧
    (∀ (incr r : ℝ) (i : ℕ), ∀ k ∈ rtAccesses incr r i, k < 4096) ∧
    (∀ (t₁ t₂ : ℕ → ℝ) (incr : ℝ) (i : ℕ),
      (∀ k ∈ stdAccesses incr i, t₁ k = t₂ k) → stdSample t₁ incr i = stdSample t₂ incr i) ∧
    (∀ (t₁ t₂ : ℕ → ℝ) (incr r : ℝ) (i : ℕ),
      (∀ k ∈ rtAccesses incr r i, t₁ k = t₂ k) → rtSample t₁ incr r i = rtSample t₂ incr r i) := by
  refine ⟨?_, ?_, ?_, ?_⟩
  · intro incr i k hk
    simp only [stdAccesses, lerpAccesses, List.mem_cons, List.mem_singleton] at hk
    rcases hk with rfl | rfl | hk
    · exact maskIdx_lt _
    · exact maskIdx_lt _
    · exact absurd hk (List.not_mem_nil k)
  · intro incr r i k hk
    simp only [rtAccesses, lerpAccesses, List.mem_append, List.mem_cons,
      List.mem_singleton] at hk
    rcases hk with (rfl | rfl | hk) | (rfl | rfl | hk)
    · exact maskIdx_lt _
    · exact maskIdx_lt _
    · exact absurd hk (List.not_mem_nil k)
    · exact maskIdx_lt _
    · exact maskIdx_lt _
    · exact absurd hk (List.not_mem_nil k)
  · intro t₁ t₂ incr i h
    simp only [stdSample]
    exact lerpTable_congr t₁ t₂ _ h
  · intro t₁ t₂ incr r i h
    simp only [rtSample]
    have ha := lerpTable_congr t₁ t₂ (incr * (⌊(i : ℝ) * r⌋ : ℝ))
      (fun k hk => h k (List.mem_append_left _ hk))
    have hb := lerpTable_congr t₁ t₂ (incr * ((⌊(i : ℝ) * r⌋ : ℝ) + 1))
      (fun k hk => h k (List.mem_append_right _ hk))
    rw [ha, hb]

/-- Witness for C10: concrete in-range accesses and an agreeing-table
instance for the dependency part. -/
theorem claim_C10_witness :
    (∀ k ∈ stdAccesses 1 3, k < 4096) ∧
    stdSample (fun j => (j : ℝ)) 1 3 = stdSample (fun j => (j : ℝ)) 1 3 :=
  ⟨claim_C10.1 1 3,
   claim_C10.2.2.1 (fun j => (j : ℝ)) (fun j => (j : ℝ)) 1 3 (fun _ _ => rfl)⟩

/-- Claim C3 (code bug): with the identity filter (b0 = a0 = 1, all other
coefficients 0), zero history, input [1, 1, 1, 1] and a zeroed output
buffer, `process_block` writes only the first two samples — its loop
`for i in range(2, _len)` stops two samples short of the padded buffer —
so the produced block [1, 1, 0, 0] differs from the full per-sample
recurrence [1, 1, 1, 1] at the last two indices. -/
theorem claim_C3_code_bug :
    (processBlock ⟨⟨1, 0, 0, 1, 0, 0⟩, 0, 0, 0, 0⟩ [1, 1, 1, 1] [0, 0, 0, 0]).1 =
      [1, 1, 0, 0] ∧
    biquadRun ⟨1, 0, 0, 1, 0, 0⟩ 0 0 0 0 [1, 1, 1, 1] = [1, 1, 1, 1] ∧
    (processBlock ⟨⟨1, 0, 0, 1, 0, 0⟩, 0, 0, 0, 0⟩ [1, 1, 1, 1] [0, 0, 0, 0]).1 ≠
      biquadRun ⟨1, 0, 0, 1, 0, 0⟩ 0 0 0 0 [1, 1, 1, 1] := by
  have hA : (processBlock ⟨⟨1, 0, 0, 1, 0, 0⟩, 0, 0, 0, 0⟩ [1, 1, 1, 1] [0, 0, 0, 0]).1 =
      [1, 1, 0, 0] := by
    norm_num [processBlock, biquadRun, biquadStep]
  have hB : biquadRun ⟨1, 0, 0, 1, 0, 0⟩ 0 0 0 0 [1, 1, 1, 1] = [1, 1, 1, 1] := by
    norm_num [biquadRun, biquadStep]
  refine ⟨hA, hB, ?_⟩
  rw [hA, hB]
  norm_num

/-- Claim C2 (code bug): with the identity filter, zero history and zeroed
output buffers, one `process_block` call on [1, 1, 1, 1] yields
[1, 1, 0, 0], while two sequential calls on [1, 1] then [1, 1] with the
carried state yield [0, 0] ++ [0, 0]; block processing is not
split-invariant because the loop drops the last two samples of every block
and the carried output history picks up the stale values. -/
theorem claim_C2_code_bug :
    (processBlock ⟨⟨1, 0, 0, 1, 0, 0⟩, 0, 0, 0, 0⟩ [1, 1] [0, 0]).1 ++
      (processBlock (processBlock ⟨⟨1, 0, 0, 1, 0, 0⟩, 0, 0, 0, 0⟩ [1, 1] [0, 0]).2
        [1, 1] [0, 0]).1 = [0, 0, 0, 0] ∧
    (processBlock ⟨⟨1, 0, 0, 1, 0, 0⟩, 0, 0, 0, 0⟩ [1, 1, 1, 1] [0, 0, 0, 0]).1 ≠
      (processBlock ⟨⟨1, 0, 0, 1, 0, 0⟩, 0, 0, 0, 0⟩ [1, 1] [0, 0]).1 ++
        (processBlock (processBlock ⟨⟨1, 0, 0, 1, 0, 0⟩, 0, 0, 0, 0⟩ [1, 1] [0, 0]).2
          [1, 1] [0, 0]).1 := by
  have hsplit : (processBlock ⟨⟨1, 0, 0, 1, 0, 0⟩, 0, 0, 0, 0⟩ [1, 1] [0, 0]).1 ++
      (processBlock (processBlock ⟨⟨1, 0, 0, 1, 0, 0⟩, 0, 0, 0, 0⟩ [1, 1] [0, 0]).2
        [1, 1] [0, 0]).1 = [0, 0, 0, 0] := by
    norm_num [processBlock, biquadRun, biquadStep]
  have hone : (processBlock ⟨⟨1, 0, 0, 1, 0, 0⟩, 0, 0, 0, 0⟩ [1, 1, 1, 1] [0, 0, 0, 0]).1 =
      [1, 1, 0, 0] := by
    norm_num [processBlock, biquadRun, biquadStep]
  refine ⟨hsplit, ?_⟩
  rw [hsplit, hone]
  norm_num

/-- Claim C4 (code bug): with offset 0, amplitude 0.05 and rate 11025 — all
inside the documented parameter ranges — the constructor clamp accepts the
amplitude unchanged, yet during a single `process_block` call on a 6-sample
block the shared coefficient b0 = a1 takes the value -0.1 (below
mMin = -0.05, outside the safety band) at loop step 3 and the value 0 (the
documented unstable pole-zero-cancellation point) at loop step 5. -/
theorem claim_C4_code_bug :
    apAmp 0 0.05 = 0.05 ∧
    apUpdate 0 0.05 11025 3 = -0.1 ∧
    apUpdate 0 0.05 11025 3 < -0.05 ∧
    apUpdate 0 0.05 11025 5 = 0 ∧
    apUpdate 0 0.05 11025 3 ∈ apBlockCoeffs 0 0.05 11025 6 ∧
    apUpdate 0 0.05 11025 5 ∈ apBlockCoeffs 0 0.05 11025 6 := by
  have hamp : apAmp 0 0.05 = 0.05 := by
    rw [apAmp, apOffset]
    norm_num [min_def]
  have hsin3 : sin (2 * π * 11025 * ((3 : ℕ) : ℝ) / 44100) = -1 := by
    have h : 2 * π * 11025 * ((3 : ℕ) : ℝ) / 44100 = π / 2 + π := by
      push_cast
      field_simp
      ring
    rw [h, sin_add_pi, sin_pi_div_two]
  have hsin5 : sin (2 * π * 11025 * ((5 : ℕ) : ℝ) / 44100) = 1 := by
    have h : 2 * π * 11025 * ((5 : ℕ) : ℝ) / 44100 = π / 2 + 2 * π := by
      push_cast
      field_simp
      ring
    rw [h, sin_add_two_pi, sin_pi_div_two]
  have h3 : apUpdate 0 0.05 11025 3 = -0.1 := by
    rw [apUpdate, hamp, hsin3, apOffset]
    norm_num
  have h5 : apUpdate 0 0.05 11025 5 = 0 := by
    rw [apUpdate, hamp, hsin5, apOffset]
    norm_num
  have hmem : apBlockCoeffs 0 0.05 11025 6 =
      [apUpdate 0 0.05 11025 2, apUpdate 0 0.05 11025 3,
        apUpdate 0 0.05 11025 4, apUpdate 0 0.05 11025 5] := rfl
  refine ⟨hamp, h3, ?_, h5, ?_, ?_⟩
  · rw [h3]
    norm_num
  · rw [hmem]
    exact List.mem_cons_of_mem _ (List.mem_cons_self _ _)
  · rw [hmem]
    exact List.mem_cons_of_mem _ (List.mem_cons_of_mem _ (List.mem_cons_of_mem _
      (List.mem_cons_self _ _)))

end Dsp
